import Mathlib

/-!
Shallow embedding of the Ed25519 group-law package (`package group`):
extended and projective twisted-Edwards point operations over GF(2^255 - 19).

Field elements (`radix51.FieldElement`) are modelled as `ZMod p`; the limbed
curve constants `D` and `twoD` are translated from their radix-51 limb values.
Each group operation is translated statement-by-statement from the Go source;
in-place receiver mutation becomes a returned value, and for `DoubleZ1` (which
copies the receiver and returns a fresh point) the call is modelled as a pair
(final receiver value, returned point).
-/

/-- The field modulus of Curve25519 arithmetic: 2^255 - 19. -/
def p : ℕ := 2 ^ 255 - 19

instance : Fact (1 < p) := ⟨by norm_num [p]⟩

instance : NeZero p := ⟨by norm_num [p]⟩

/-- Field elements of the external radix-51 field package, modelled as residues
mod p (spec: "a residue modulo p"). -/
abbrev FieldElement := ZMod p

/-- Integer value of the radix-51 limb vector of the curve constant `D`
(`var D = &radix51.FieldElement{929955233495203, ...}`). -/
def DNat : ℕ :=
  929955233495203 + 466365720129213 * 2 ^ 51 + 1662059464998953 * 2 ^ 102 +
    2033849074728123 * 2 ^ 153 + 1442794654840575 * 2 ^ 204

/-- Integer value of the radix-51 limb vector of the constant `twoD`
(`var twoD = &radix51.FieldElement{1859910466990425, ...}`). -/
def twoDNat : ℕ :=
  1859910466990425 + 932731440258426 * 2 ^ 51 + 1072319116312658 * 2 ^ 102 +
    1815898335770999 * 2 ^ 153 + 633789495995903 * 2 ^ 204

/-- The curve constant `d` in the curve equation, as a field element. -/
def D : FieldElement := DNat

/-- The precomputed constant `2*d`, as a field element. -/
def twoD : FieldElement := twoDNat

/-- The two limbed constants are consistent: `twoD` is twice `D` in the field. -/
theorem twoD_eq_two_mul_D : twoD = 2 * D := by
  have h : 2 * DNat = twoDNat + p := by decide
  have h2 : ((2 * DNat : ℕ) : ZMod p) = ((twoDNat + p : ℕ) : ZMod p) := by rw [h]
  rw [twoD, D]
  push_cast [ZMod.natCast_self] at h2
  linear_combination -h2

/-- Extended twisted-Edwards coordinates `(X, Y, Z, T)` with
`x = X/Z`, `y = Y/Z`, `x*y = T/Z` ("P3" in ref10). -/
structure ExtendedGroupElement where
  X : FieldElement
  Y : FieldElement
  Z : FieldElement
  T : FieldElement

/-- Projective coordinates `(X, Y, Z)` with `x = X/Z`, `y = Y/Z`
("P2" in ref10). -/
structure ProjectiveGroupElement where
  X : FieldElement
  Y : FieldElement
  Z : FieldElement

/-- The affine twisted-Edwards curve equation with `a = -1`:
`-x^2 + y^2 = 1 + d*x^2*y^2`. -/
def onCurve (x y : FieldElement) : Prop :=
  -x ^ 2 + y ^ 2 = 1 + D * x ^ 2 * y ^ 2

/-- An extended point satisfies the representation invariants when it
represents some affine on-curve point `(x, y)`: `X = x*Z`, `Y = y*Z`,
`T = x*y*Z` (so `T*Z = X*Y`), with `Z` nonzero (spec: Z is never
legitimately zero). -/
def ExtendedGroupElement.valid (P : ExtendedGroupElement) : Prop :=
  P.Z ≠ 0 ∧ ∃ x y : FieldElement,
    P.X = x * P.Z ∧ P.Y = y * P.Z ∧ P.T = x * y * P.Z ∧ onCurve x y

/-- Two extended points represent the same affine point: the projective
cross-multiplication equalities `X1*Z2 = X2*Z1` and `Y1*Z2 = Y2*Z1`. -/
def sameAffine (P Q : ExtendedGroupElement) : Prop :=
  P.X * Q.Z = Q.X * P.Z ∧ P.Y * Q.Z = Q.Y * P.Z

/-- Two projective points represent the same affine point. -/
def sameAffineProj (P Q : ProjectiveGroupElement) : Prop :=
  P.X * Q.Z = Q.X * P.Z ∧ P.Y * Q.Z = Q.Y * P.Z

/-- Modelled from the spec: the external field package's Fermat-based
multiplicative inversion (`radix51.FieldElement.Invert`, not part of this
package): `z^(p-2)`, which "conventionally returns zero" on input zero. -/
def feInvert (z : FieldElement) : FieldElement := z ^ (p - 2)

/-- Modelled from the spec: conversion of a field element to an
arbitrary-precision integer in canonical `[0, p)` form
(`radix51.FieldElement.ToBig`, not part of this package). -/
def feToBig (a : FieldElement) : ℤ := (a.val : ℤ)

/-- `ExtendedGroupElement.FromAffine`: `X = x mod p`, `Y = y mod p`,
`T = X*Y`, `Z = 1` (big.Int inputs reduce mod p via `FromBig`). -/
def ExtendedGroupElement.FromAffine (x y : ℤ) : ExtendedGroupElement :=
  ⟨(x : FieldElement), (y : FieldElement),
    1, (x : FieldElement) * (y : FieldElement)⟩

/-- `ExtendedGroupElement.ToAffine`: `zinv = Z⁻¹` (Fermat inversion), returns
`(X*zinv, Y*zinv)` as canonical integers. -/
def ExtendedGroupElement.ToAffine (v : ExtendedGroupElement) : ℤ × ℤ :=
  let zinv := feInvert v.Z
  (feToBig (v.X * zinv), feToBig (v.Y * zinv))

/-- `ExtendedGroupElement.ToProjective`: copies `X, Y, Z`, discards `T`. -/
def ExtendedGroupElement.ToProjective (v : ExtendedGroupElement) :
    ProjectiveGroupElement :=
  ⟨v.X, v.Y, v.Z⟩

/-- `ExtendedGroupElement.Zero`: sets the receiver to `(0, 1, 1, 0)`. -/
def ExtendedGroupElement.Zero : ExtendedGroupElement := ⟨0, 1, 1, 0⟩

/-- `ExtendedGroupElement.Add`, the unified "add-2008-hwcd-3" formula,
translated statement-by-statement; the receiver's prior value is never read,
so the method is a function of `p1` and `p2`. -/
def ExtendedGroupElement.Add (p1 p2 : ExtendedGroupElement) :
    ExtendedGroupElement :=
  let tmp1 := p1.Y - p1.X
  let tmp2 := p2.Y - p2.X
  let A := tmp1 * tmp2
  let tmp1 := p1.Y + p1.X
  let tmp2 := p2.Y + p2.X
  let B := tmp1 * tmp2
  let tmp1 := p1.T * p2.T
  let C := tmp1 * twoD
  let tmp1 := p1.Z * p2.Z
  let D := tmp1 + tmp1
  let E := B - A
  let F := D - C
  let G := D + C
  let H := B + A
  ⟨E * F, G * H, F * G, E * H⟩

/-- `ExtendedGroupElement.Double`, the dedicated HWCD Section 3.3 doubling,
translated statement-by-statement (`C` is squared then added to itself,
`D` is the negation of `A`, `E` uses the temporary `t0`). -/
def ExtendedGroupElement.Double (v : ExtendedGroupElement) :
    ExtendedGroupElement :=
  let A := v.X * v.X
  let B := v.Y * v.Y
  let C0 := v.Z * v.Z
  let C := C0 + C0
  let D := -A
  let t0 := v.X + v.Y
  let t1 := t0 * t0
  let E0 := t1 - A
  let E := E0 - B
  let G := D + B
  let F := G - C
  let H := D - B
  ⟨E * F, G * H, F * G, E * H⟩

/-- `ProjectiveGroupElement.FromAffine` as written in the source:
`X = x mod p`, `Y = y mod p`, and `v.Z.Zero()` sets `Z = 0`. -/
def ProjectiveGroupElement.FromAffine (x y : ℤ) : ProjectiveGroupElement :=
  ⟨(x : FieldElement), (y : FieldElement), 0⟩

/-- `ProjectiveGroupElement.FromAffine` as written in the sibling file
`internal/group/ge.go`, which sets `Z = 1` via `FeOne`. -/
def ProjectiveGroupElement.FromAffineGe (x y : ℤ) : ProjectiveGroupElement :=
  ⟨(x : FieldElement), (y : FieldElement), 1⟩

/-- `ProjectiveGroupElement.ToAffine`: same inversion-based extraction as the
extended variant. -/
def ProjectiveGroupElement.ToAffine (v : ProjectiveGroupElement) : ℤ × ℤ :=
  let zinv := feInvert v.Z
  (feToBig (v.X * zinv), feToBig (v.Y * zinv))

/-- `ProjectiveGroupElement.ToExtended`: the inversion-free HWCD conversion
`(X*Z, Y*Z, X*Y, Z^2)`, in the source's operation order. -/
def ProjectiveGroupElement.ToExtended (v : ProjectiveGroupElement) :
    ExtendedGroupElement :=
  let rx := v.X * v.Z
  let ry := v.Y * v.Z
  let rt := v.X * v.Y
  let rz := v.Z * v.Z
  ⟨rx, ry, rz, rt⟩

/-- `ProjectiveGroupElement.Zero`: sets the receiver to `(0, 1, 1)`. -/
def ProjectiveGroupElement.Zero : ProjectiveGroupElement := ⟨0, 1, 1⟩

/-- `ProjectiveGroupElement.DoubleZ1` ("mdbl-2008-bbjlp" with Z1 = 1),
translated statement-by-statement. The method copies the receiver into the
local `p` (`p = *v`), then writes only to the locals `p`, `q`, `t0`, `t1`,
and returns `&q`; the call is modelled as the pair
(receiver value after the call, returned point), with each write to `p` or
`q` threaded through successive local states. -/
def ProjectiveGroupElement.DoubleZ1 (v : ProjectiveGroupElement) :
    ProjectiveGroupElement × ProjectiveGroupElement :=
  let p0 := v
  let q0 : ProjectiveGroupElement := ⟨0, 0, 0⟩
  let t0 := p0.X * p0.X
  let t1 := p0.Y * p0.Y
  let p1 := { p0 with Z := p0.X + p0.Y }
  let q1 := { q0 with X := p1.Z * p1.Z }
  let q2 := { q1 with Z := -t0 }
  let p2 := { p1 with X := q2.Z + t1 }
  let p3 := { p2 with Y := q2.X - t0 }
  let p4 := { p3 with Y := p3.Y - t1 }
  let p5 := { p4 with Z := p4.X - 2 }
  let q3 := { q2 with X := p5.Y * p5.Z }
  let p6 := { p5 with Y := q3.Z - t1 }
  let q4 := { q3 with Y := p6.X * p6.Y }
  let q5 := { q4 with Z := p6.X * p6.X }
  let q6 := { q5 with Z := q5.Z - p6.X }
  let q7 := { q6 with Z := q6.Z - p6.X }
  (v, q7)

/-- Operation counter for field multiplications, squarings and inversions. -/
structure OpCount where
  mul : ℕ
  sq : ℕ
  inv : ℕ

/-- Field multiplication, instrumented with an operation counter. -/
def feMulC (c : OpCount) (a b : FieldElement) : FieldElement × OpCount :=
  (a * b, { c with mul := c.mul + 1 })

/-- Field squaring, instrumented with an operation counter. -/
def feSquareC (c : OpCount) (a : FieldElement) : FieldElement × OpCount :=
  (a * a, { c with sq := c.sq + 1 })

/-- Field inversion, instrumented with an operation counter. -/
def feInvertC (c : OpCount) (a : FieldElement) : FieldElement × OpCount :=
  (feInvert a, { c with inv := c.inv + 1 })

/-- `ProjectiveGroupElement.ToExtended` with every field operation counted:
`r.X.Mul(X, Z)`, `r.Y.Mul(Y, Z)`, `r.T.Mul(X, Y)`, `r.Z.Square(Z)`. -/
def ProjectiveGroupElement.ToExtendedCounted (v : ProjectiveGroupElement) :
    ExtendedGroupElement × OpCount :=
  let s0 := feMulC ⟨0, 0, 0⟩ v.X v.Z
  let s1 := feMulC s0.2 v.Y v.Z
  let s2 := feMulC s1.2 v.X v.Y
  let s3 := feSquareC s2.2 v.Z
  (⟨s0.1, s1.1, s3.1, s2.1⟩, s3.2)

/-- The cross-invariant of an extended point: `T*Z = X*Y`. -/
def crossInvariant (V : ExtendedGroupElement) : Prop :=
  V.T * V.Z = V.X * V.Y

/-- `ExtendedGroupElement.Add` with both inputs aliased to the receiver
(`v.Add(v, v)`): every read of `p1`/`p2` sees the receiver's current state,
and the four writes to the receiver are threaded in source order
(X, then Y, then T, then Z). -/
def ExtendedGroupElement.AddAliasedBoth (v : ExtendedGroupElement) :
    ExtendedGroupElement :=
  let tmp1 := v.Y - v.X
  let tmp2 := v.Y - v.X
  let A := tmp1 * tmp2
  let tmp1 := v.Y + v.X
  let tmp2 := v.Y + v.X
  let B := tmp1 * tmp2
  let tmp1 := v.T * v.T
  let C := tmp1 * twoD
  let tmp1 := v.Z * v.Z
  let D := tmp1 + tmp1
  let E := B - A
  let F := D - C
  let G := D + C
  let H := B + A
  let v1 := { v with X := E * F }
  let v2 := { v1 with Y := G * H }
  let v3 := { v2 with T := E * H }
  let v4 := { v3 with Z := F * G }
  v4

/-- `ExtendedGroupElement.Add` with the first input aliased to the receiver
(`v.Add(v, p2)`), writes threaded in source order. -/
def ExtendedGroupElement.AddAliasedLeft (v p2 : ExtendedGroupElement) :
    ExtendedGroupElement :=
  let tmp1 := v.Y - v.X
  let tmp2 := p2.Y - p2.X
  let A := tmp1 * tmp2
  let tmp1 := v.Y + v.X
  let tmp2 := p2.Y + p2.X
  let B := tmp1 * tmp2
  let tmp1 := v.T * p2.T
  let C := tmp1 * twoD
  let tmp1 := v.Z * p2.Z
  let D := tmp1 + tmp1
  let E := B - A
  let F := D - C
  let G := D + C
  let H := B + A
  let v1 := { v with X := E * F }
  let v2 := { v1 with Y := G * H }
  let v3 := { v2 with T := E * H }
  let v4 := { v3 with Z := F * G }
  v4

/-- `ExtendedGroupElement.Add` with the second input aliased to the receiver
(`v.Add(p1, v)`), writes threaded in source order. -/
def ExtendedGroupElement.AddAliasedRight (v p1 : ExtendedGroupElement) :
    ExtendedGroupElement :=
  let tmp1 := p1.Y - p1.X
  let tmp2 := v.Y - v.X
  let A := tmp1 * tmp2
  let tmp1 := p1.Y + p1.X
  let tmp2 := v.Y + v.X
  let B := tmp1 * tmp2
  let tmp1 := p1.T * v.T
  let C := tmp1 * twoD
  let tmp1 := p1.Z * v.Z
  let D := tmp1 + tmp1
  let E := B - A
  let F := D - C
  let G := D + C
  let H := B + A
  let v1 := { v with X := E * F }
  let v2 := { v1 with Y := G * H }
  let v3 := { v2 with T := E * H }
  let v4 := { v3 with Z := F * G }
  v4

/-- C2: the source's `ProjectiveGroupElement.FromAffine` sets `Z = 0`
(`v.Z.Zero()`), not `Z = 1` as the claim states; the sibling file
`internal/group/ge.go` sets `Z = 1`, and `0 ≠ 1` in the field. -/
theorem projectiveFromAffine_sets_z_to_zero :
    (ProjectiveGroupElement.FromAffine 0 1).Z = 0 ∧
      (ProjectiveGroupElement.FromAffineGe 0 1).Z = 1 ∧
      (0 : FieldElement) ≠ 1 :=
  ⟨rfl, rfl, zero_ne_one⟩

/-- C3: `ToExtended` computes `X' = X*Z`, `Y' = Y*Z`, `T' = X*Y`, `Z' = Z²`,
and the instrumented version shows it is exactly 3 multiplications plus 1
squaring with no inversion. -/
theorem toExtended_inversion_free (v : ProjectiveGroupElement) :
    (v.ToExtendedCounted).1 = v.ToExtended ∧
      (v.ToExtended).X = v.X * v.Z ∧
      (v.ToExtended).Y = v.Y * v.Z ∧
      (v.ToExtended).T = v.X * v.Y ∧
      (v.ToExtended).Z = v.Z ^ 2 ∧
      (v.ToExtendedCounted).2 = ⟨3, 1, 0⟩ := by
  refine ⟨rfl, rfl, rfl, rfl, ?_, rfl⟩
  simp [ProjectiveGroupElement.ToExtended]
  ring

/-- C4: `ExtendedGroupElement.Double` computes the dedicated HWCD doubling
formula: with `A = X²`, `B = Y²`, `C = 2Z²`, `D = -A`,
`E = (X+Y)² - A - B`, `G = D+B`, `F = G-C`, `H = D-B`, the result is
`X' = E*F`, `Y' = G*H`, `T' = E*H`, `Z' = F*G`, for every input point. -/
theorem double_dedicated_formula (v : ExtendedGroupElement) :
    (v.Double).X =
        ((v.X + v.Y) ^ 2 - v.X ^ 2 - v.Y ^ 2) *
          ((-(v.X ^ 2) + v.Y ^ 2) - 2 * v.Z ^ 2) ∧
      (v.Double).Y = (-(v.X ^ 2) + v.Y ^ 2) * (-(v.X ^ 2) - v.Y ^ 2) ∧
      (v.Double).T =
        ((v.X + v.Y) ^ 2 - v.X ^ 2 - v.Y ^ 2) * (-(v.X ^ 2) - v.Y ^ 2) ∧
      (v.Double).Z =
        ((-(v.X ^ 2) + v.Y ^ 2) - 2 * v.Z ^ 2) * (-(v.X ^ 2) + v.Y ^ 2) := by
  refine ⟨?_, ?_, ?_, ?_⟩ <;>
    · simp only [ExtendedGroupElement.Double]
      ring

/-- C5: `Add` is aliasing-safe: with the receiver aliasing both inputs, or
exactly the left or right input, the sequentially-threaded in-place execution
produces the same point as `Add` on independent copies. -/
theorem add_aliasing_safe (v w : ExtendedGroupElement) :
    v.AddAliasedBoth = ExtendedGroupElement.Add v v ∧
      v.AddAliasedLeft w = ExtendedGroupElement.Add v w ∧
      v.AddAliasedRight w = ExtendedGroupElement.Add w v :=
  ⟨rfl, rfl, rfl⟩

/-- C6: the cross-invariant `T*Z = X*Y` holds for the output of `Zero`,
`FromAffine`, `Add`, `Double` and `ToExtended`, for all inputs, without
assuming it of the inputs. -/
theorem cross_invariant_preserved (P Q : ExtendedGroupElement)
    (R : ProjectiveGroupElement) (x y : ℤ) :
    crossInvariant ExtendedGroupElement.Zero ∧
      crossInvariant (ExtendedGroupElement.FromAffine x y) ∧
      crossInvariant (ExtendedGroupElement.Add P Q) ∧
      crossInvariant P.Double ∧
      crossInvariant R.ToExtended := by
  refine ⟨?_, ?_, ?_, ?_, ?_⟩ <;>
      simp only [crossInvariant, ExtendedGroupElement.Zero,
        ExtendedGroupElement.FromAffine, ExtendedGroupElement.Add,
        ExtendedGroupElement.Double, ProjectiveGroupElement.ToExtended] <;>
    ring

/-- C9: `ToAffine` on a point with `Z = 0` silently returns `(0, 0)` (for
both the extended and the projective variant), since Fermat inversion maps
zero to zero; no failure is signalled (the functions are total). -/
theorem toAffine_z_zero (v : ExtendedGroupElement)
    (w : ProjectiveGroupElement) (hv : v.Z = 0) (hw : w.Z = 0) :
    v.ToAffine = (0, 0) ∧ w.ToAffine = (0, 0) := by
  have hp : p - 2 ≠ 0 := by norm_num [p]
  constructor <;>
    · simp [ExtendedGroupElement.ToAffine, ProjectiveGroupElement.ToAffine,
        feInvert, feToBig, hv, hw, zero_pow hp]

/-- C9 witness: a concrete extended and projective point with `Z = 0`. -/
theorem toAffine_z_zero_witness :
    (⟨0, 0, 0, 0⟩ : ExtendedGroupElement).Z = 0 ∧
      (⟨0, 0, 0⟩ : ProjectiveGroupElement).Z = 0 ∧
      ((⟨0, 0, 0, 0⟩ : ExtendedGroupElement).ToAffine = (0, 0) ∧
        (⟨0, 0, 0⟩ : ProjectiveGroupElement).ToAffine = (0, 0)) :=
  ⟨rfl, rfl, toAffine_z_zero ⟨0, 0, 0, 0⟩ ⟨0, 0, 0⟩ rfl rfl⟩

/-- The identity point `(0, 1, 1, 0)` satisfies the representation
invariants: it represents the affine point `(0, 1)`, which lies on the
curve. -/
theorem zero_valid : ExtendedGroupElement.Zero.valid := by
  simp only [ExtendedGroupElement.valid, ExtendedGroupElement.Zero]
  exact ⟨one_ne_zero, 0, 1, by simp, by simp, by simp, by simp [onCurve]⟩

/-- C1: for every extended point satisfying the representation invariants,
the unified addition applied to equal arguments and the dedicated doubling
represent the same affine point. -/
theorem add_self_eq_double (P : ExtendedGroupElement) (h : P.valid) :
    sameAffine (ExtendedGroupElement.Add P P) P.Double := by
  obtain ⟨hZ, x, y, hX, hY, hT, hc⟩ := h
  obtain ⟨PX, PY, PZ, PT⟩ := P
  dsimp only at hX hY hT hZ
  subst hX; subst hY; subst hT
  rw [onCurve] at hc
  simp only [sameAffine, ExtendedGroupElement.Add, ExtendedGroupElement.Double,
    twoD_eq_two_mul_D]
  constructor
  · linear_combination
      (8 * x * y * PZ ^ 8 * (1 - D * x ^ 2 * y ^ 2) * (y ^ 2 - x ^ 2 - 2)) * hc
  · linear_combination
      (4 * PZ ^ 8 * (1 + D * x ^ 2 * y ^ 2) * (x ^ 2 + y ^ 2) *
        (y ^ 2 - x ^ 2)) * hc

/-- C1 witness: the identity point is valid, and addition with itself agrees
with doubling there. -/
theorem add_self_eq_double_witness :
    ExtendedGroupElement.Zero.valid ∧
      sameAffine
        (ExtendedGroupElement.Add ExtendedGroupElement.Zero
          ExtendedGroupElement.Zero)
        ExtendedGroupElement.Zero.Double :=
  ⟨zero_valid, add_self_eq_double ExtendedGroupElement.Zero zero_valid⟩

/-- C7: the identity `(0, 1, 1, 0)` is a two-sided identity for `Add` up to
affine equality, for every valid extended point. -/
theorem add_zero_identity (P : ExtendedGroupElement) (_h : P.valid) :
    sameAffine (ExtendedGroupElement.Add P ExtendedGroupElement.Zero) P ∧
      sameAffine (ExtendedGroupElement.Add ExtendedGroupElement.Zero P) P := by
  constructor <;>
      simp only [sameAffine, ExtendedGroupElement.Add,
        ExtendedGroupElement.Zero] <;>
    exact ⟨by ring, by ring⟩

/-- C7 witness: the identity point is valid and absorbs itself on both
sides. -/
theorem add_zero_identity_witness :
    ExtendedGroupElement.Zero.valid ∧
      (sameAffine
          (ExtendedGroupElement.Add ExtendedGroupElement.Zero
            ExtendedGroupElement.Zero)
          ExtendedGroupElement.Zero ∧
        sameAffine
          (ExtendedGroupElement.Add ExtendedGroupElement.Zero
            ExtendedGroupElement.Zero)
          ExtendedGroupElement.Zero) :=
  ⟨zero_valid, add_zero_identity ExtendedGroupElement.Zero zero_valid⟩

/-- C8: for a valid projective point with `Z = 1`, the `DoubleZ1` fast path
and the extended dedicated-doubling path (`ToExtended`, then `Double`, then
`ToProjective`) represent the same affine point. -/
theorem doubleZ1_matches_extended_double (P : ProjectiveGroupElement)
    (hZ : P.Z = 1) (hc : onCurve P.X P.Y) :
    sameAffineProj ((P.DoubleZ1).2)
      ((P.ToExtended.Double).ToProjective) := by
  obtain ⟨PX, PY, PZ⟩ := P
  dsimp only at hZ hc
  subst hZ
  simp only [sameAffineProj, ProjectiveGroupElement.DoubleZ1,
    ProjectiveGroupElement.ToExtended, ExtendedGroupElement.Double,
    ExtendedGroupElement.ToProjective]
  exact ⟨by ring, by ring⟩

/-- C8 witness: the projective identity `(0, 1, 1)` has `Z = 1` and lies on
the curve, and the two doubling paths agree there. -/
theorem doubleZ1_matches_extended_double_witness :
    (⟨0, 1, 1⟩ : ProjectiveGroupElement).Z = 1 ∧
      onCurve (⟨0, 1, 1⟩ : ProjectiveGroupElement).X
        (⟨0, 1, 1⟩ : ProjectiveGroupElement).Y ∧
      sameAffineProj (((⟨0, 1, 1⟩ : ProjectiveGroupElement).DoubleZ1).2)
        ((((⟨0, 1, 1⟩ : ProjectiveGroupElement).ToExtended).Double).ToProjective) :=
  ⟨rfl, by simp [onCurve],
    doubleZ1_matches_extended_double ⟨0, 1, 1⟩ rfl (by simp [onCurve])⟩

/-- C10: `DoubleZ1` leaves the receiver's `X`, `Y`, `Z` fields unchanged
after the call and returns a separately constructed point, for every input
projective point (including `Z ≠ 1`). -/
theorem doubleZ1_receiver_unchanged (v : ProjectiveGroupElement) :
    ((v.DoubleZ1).1).X = v.X ∧ ((v.DoubleZ1).1).Y = v.Y ∧
      ((v.DoubleZ1).1).Z = v.Z :=
  ⟨rfl, rfl, rfl⟩
